import Mathlib

/-!
Verification development for the BrightScript debug-adapter session
controller (`BrightScriptDebugSession`), shallowly embedding the
breakpoint store, the stop-line injection, the path / line translation
and the evaluation-reference cache, together with proofs of the
specified properties.

JavaScript strings are modelled through their character lists
(`String.data`); Node's `path.join`/`path.normalize` are external
library collaborators and are passed in as an uninterpreted function
where a definition needs them.
-/

/-! ### String helpers (JS string primitives over character lists) -/

/-- JS `String.prototype.toLowerCase`, character by character. -/
def strLower (s : String) : String :=
  ⟨s.data.map Char.toLower⟩

/-- JS `String.prototype.substring(n)` (drop the first `n` characters). -/
def strDrop (s : String) (n : Nat) : String :=
  ⟨s.data.drop n⟩

/-- JS `s.indexOf(pre) === 0`: `pre` is a prefix of `s`. -/
def strStartsWith (s pre : String) : Bool :=
  pre.data.isPrefixOf s.data

/-- JS `String.prototype.endsWith`. -/
def strEndsWith (s suf : String) : Bool :=
  suf.data.isSuffixOf s.data

/-- JS `s.indexOf(sub) > -1`: `sub` occurs somewhere inside `s`. -/
def strContainsSub (s sub : String) : Bool :=
  decide (sub.data <:+: s.data)

/-- JS `String.prototype.trim` (restricted to the space character). -/
def strTrim (s : String) : String :=
  ⟨((s.data.dropWhile (· = ' ')).reverse.dropWhile (· = ' ')).reverse⟩

/-! ### Data model

`DebugProtocol.Breakpoint` as produced by `setBreakPointsRequest` /
`addEntryBreakpoint`: `new Breakpoint(true, lineNumber)` plus the
`id` field assigned from `this.breakpointIdCounter++`. -/

structure Breakpoint where
  id : Nat
  line : Nat
  verified : Bool
deriving DecidableEq, Repr

/-- The mutable session fields touched by the breakpoint lifecycle:
`breakpointsByClientPath`, `breakpointIdCounter`,
`launchRequestWasCalled` (src/BuiltinCompletionItems.ts lines 50-51, 96). -/
structure BreakpointState where
  breakpointsByClientPath : List (String × List Breakpoint)
  breakpointIdCounter : Nat
  launchRequestWasCalled : Bool
deriving Repr

/-- Store a value under a key in a JS-object-modelling association list. -/
def storeSet (store : List (String × List Breakpoint)) (key : String)
    (v : List Breakpoint) : List (String × List Breakpoint) :=
  (key, v) :: store.eraseP (fun e => e.1 == key)

/-- Node `path.extname`: the extension of the final path segment,
empty for a dotless or dot-leading (hidden) file name. -/
def extname (s : String) : String :=
  let base := (s.data.reverse.takeWhile (fun c => c ≠ '/')).reverse
  let rev := base.reverse
  let pre := rev.takeWhile (fun c => c ≠ '.')
  if pre.length = rev.length then ""
  else if pre.length + 1 = rev.length then ""
  else ⟨'.' :: pre.reverse⟩

/-- `clientLines.map(...)` with the captured `breakpointIdCounter++`:
the n-th requested line receives id `counter + n`. -/
def allocateBreakpoints (counter : Nat) : List Nat → List Breakpoint
  | [] => []
  | l :: rest => { id := counter, line := l, verified := true } :: allocateBreakpoints (counter + 1) rest

/-- Warning emitted when breakpoints arrive after launch
(src/BuiltinCompletionItems.ts line 215). -/
def breakpointsAfterLaunchWarning : String :=
  "\nBreakpoints cannot be set during a debugging session"

/-- `setBreakPointsRequest` (src/BuiltinCompletionItems.ts lines 211-244).
Returns the updated session state, the response body (`none` when the
handler returns without calling `sendResponse`, which happens on the
after-launch early return), and the emitted output events.
`normalize` stands for Node's `path.normalize`.  The
`debugRootDir` replacement at lines 220-222 is skipped because
`this.launchArgs` is not yet set before launch, and after launch the
handler never reaches that line. -/
def setBreakPointsRequest (normalize : String → String) (st : BreakpointState)
    (sourcePath : String) (lines : List Nat) :
    BreakpointState × Option (List Breakpoint) × List String :=
  if st.launchRequestWasCalled then
    (st, none, [breakpointsAfterLaunchWarning])
  else
    let clientPath := normalize sourcePath
    let extension := strLower (extname clientPath)
    if extension = ".brs" then
      let actualBreakpoints := allocateBreakpoints st.breakpointIdCounter lines
      ({ st with
          breakpointsByClientPath := storeSet st.breakpointsByClientPath clientPath actualBreakpoints,
          breakpointIdCounter := st.breakpointIdCounter + lines.length },
        some actualBreakpoints, [])
    else
      (st, some [], [])

/-- The entry-breakpoint allocation of src/BuiltinCompletionItems.ts lines
605-606: `new Breakpoint(true, lineNumber + 1)` with
`id = this.breakpointIdCounter++` — it draws from the same counter as
`setBreakPointsRequest`. -/
def allocEntryBreakpoint (st : BreakpointState) (lineNumber : Nat) :
    BreakpointState × Breakpoint :=
  ({ st with breakpointIdCounter := st.breakpointIdCounter + 1 },
    { id := st.breakpointIdCounter, line := lineNumber + 1, verified := true })

/-! ### Path translation -/

/-- The slice of `LaunchRequestArguments` the path logic reads.
`debugRootDir` is optional in the manifest; `none` models it absent
(JS `undefined`, falsy). -/
structure LaunchArgsModel where
  rootDir : String
  debugRootDir : Option String
deriving Repr

/-- The root directory used when mapping device paths back to client
paths: `debugRootDir` if provided, else `rootDir`
(src/BuiltinCompletionItems.ts line 479). -/
def effectiveRootDir (la : LaunchArgsModel) : String :=
  match la.debugRootDir with
  | some d => d
  | none => la.rootDir

/-- `convertDebuggerPathToClient` (src/BuiltinCompletionItems.ts lines
454-483).  `joinNorm` stands for the external
`path.normalize(path.join(rootDir, p))` composite. -/
def convertDebuggerPathToClient (joinNorm : String → String → String)
    (stagingDirPaths : List String) (la : LaunchArgsModel)
    (debuggerPath : String) : String :=
  let p :=
    if strStartsWith (strLower debuggerPath) "pkg:" then
      strDrop debuggerPath 4
    else if strStartsWith debuggerPath "..." then
      let suffix := strDrop debuggerPath 3
      let results := stagingDirPaths.filter
        (fun sp => strContainsSub sp suffix && strEndsWith sp suffix)
      if results.length = 1 then results.headD suffix else suffix
    else debuggerPath
  joinNorm (effectiveRootDir la) p

/-! ### Line correction (`convertDebuggerLineToClientLine`) -/

/-- The `for (let breakpoint of breakpoints)` loop of
src/BuiltinCompletionItems.ts lines 665-673: decrement once per
breakpoint whose line is at most the running count, stop at the first
breakpoint past it. -/
def convertLineLoop : List Breakpoint → Nat → Nat
  | [], resultLineNumber => resultLineNumber
  | breakpoint :: rest, resultLineNumber =>
    if breakpoint.line ≤ resultLineNumber then
      convertLineLoop rest (resultLineNumber - 1)
    else
      resultLineNumber

/-- `convertDebuggerLineToClientLine` (src/BuiltinCompletionItems.ts
lines 661-674). -/
def convertDebuggerLineToClientLine (joinNorm : String → String → String)
    (stagingDirPaths : List String) (la : LaunchArgsModel)
    (store : List (String × List Breakpoint)) (debuggerPath : String)
    (debuggerLineNumber : Nat) : Nat :=
  let clientPath := convertDebuggerPathToClient joinNorm stagingDirPaths la debuggerPath
  let breakpoints := (store.lookup clientPath).getD []
  convertLineLoop breakpoints debuggerLineNumber

/-! ### Stop-line injection (`addBreakpointStatements`) -/

/-- Split a character list at newline characters. -/
def splitNlChars : List Char → List (List Char)
  | [] => [[]]
  | c :: rest =>
    match splitNlChars rest with
    | [] => [[c]]
    | h :: t => if c = '\n' then [] :: h :: t else (c :: h) :: t

/-- `eol.split(fileContents)` (line split; contents are assumed to use
LF line endings). -/
def splitNl (s : String) : List String :=
  (splitNlChars s.data).map (fun l => ⟨l⟩)

/-- `lines.join('\n')` on character lists. -/
def joinNlChars : List (List Char) → List Char
  | [] => []
  | [x] => x
  | x :: y :: rest => x ++ '\n' :: joinNlChars (y :: rest)

/-- `lines.join('\n')`. -/
def joinNl (lines : List String) : String :=
  ⟨joinNlChars (lines.map String.data)⟩

/-- One breakpoint's mutation of its target line
(src/BuiltinCompletionItems.ts line 565): replace the line with
`STOP\n<line> `. -/
def stopify (line : String) : String :=
  "STOP\n" ++ line ++ " "

/-- The `for (let breakpoint of breakpoints)` loop of
src/BuiltinCompletionItems.ts lines 560-566: each breakpoint rewrites
the slot at the 0-based index `breakpoint.line - 1` of the (original)
line array.  An out-of-range read yields JS `undefined`. -/
def addStopsToLines (lines : List String) (breakpoints : List Breakpoint) : List String :=
  breakpoints.foldl
    (fun ls breakpoint =>
      let lineIndex := breakpoint.line - 1
      ls.set lineIndex (stopify ((ls.get? lineIndex).getD "undefined")))
    lines

/-- `addBreakpointsToFile`'s content transformation
(src/BuiltinCompletionItems.ts lines 557-567): split the staged file,
rewrite each breakpointed line, and join with `\n`.  The surrounding
file read/write targets the staged copy only and is external I/O. -/
def addBreakpointStatementsFile (fileContents : String)
    (breakpoints : List Breakpoint) : String :=
  joinNl (addStopsToLines (splitNl fileContents) breakpoints)

/-- The injected file as the device sees it: the written staged
contents, split back into lines. -/
def deviceView (fileContents : String) (breakpoints : List Breakpoint) : List String :=
  splitNl (addBreakpointStatementsFile fileContents breakpoints)

/-- `k` spaces. -/
def spacesStr (k : Nat) : String :=
  ⟨List.replicate k ' '⟩

/-! ### Entry breakpoint merge (`addEntryBreakpoint`, lines 608-634) -/

/-- JS array indexing with a possibly negative index
(`breakpoints[index - 1]` is `undefined` when `index` is `0`). -/
def jsGet (l : List Breakpoint) (i : Int) : Option Breakpoint :=
  if 0 ≤ i then l.get? i.toNat else none

/-- The comparator of src/BuiltinCompletionItems.ts lines 612-620 orders
breakpoints by line number. -/
def bpLineLe : Breakpoint → Breakpoint → Prop :=
  fun a b => a.line ≤ b.line

instance : DecidableRel bpLineLe := fun a b => Nat.decLe a.line b.line

instance : IsTotal Breakpoint bpLineLe := ⟨fun a b => Nat.le_total a.line b.line⟩

instance : IsTrans Breakpoint bpLineLe := ⟨fun _ _ _ => Nat.le_trans⟩

/-- Lines 608-632: push the entry breakpoint, sort by line number (the
ES `Array.prototype.sort` is stable, as is insertion sort), and drop
the entry breakpoint again when the user already has a breakpoint
on the same line next to it in the sorted array.  Returns the file's
new breakpoint list and `this.entryBreakpoint` (`none` models the
`undefined` reset). -/
def mergeEntryBreakpoint (userBreakpoints : List Breakpoint)
    (entryBreakpoint : Breakpoint) : List Breakpoint × Option Breakpoint :=
  let breakpoints := (userBreakpoints ++ [entryBreakpoint]).insertionSort bpLineLe
  let index := breakpoints.indexOf entryBreakpoint
  let bpBefore := jsGet breakpoints ((index : Int) - 1)
  let bpAfter := jsGet breakpoints ((index : Int) + 1)
  let dropEntry :=
    (match bpBefore with
      | some b => b.line == entryBreakpoint.line
      | none => false) ||
    (match bpAfter with
      | some b => b.line == entryBreakpoint.line
      | none => false)
  if dropEntry then
    (breakpoints.eraseIdx index, none)
  else
    (breakpoints, some entryBreakpoint)

/-! ### Entry-point search (`addEntryBreakpoint`, lines 582-590) and the
launch control flow -/

/-- A project source file (path relative to the project root, plus
contents). -/
structure SourceFile where
  path : String
  contents : String
deriving Repr

/-- `findInFiles.find({ term, flags: 'ig' }, baseProjectPath, /.*\.brs/)`:
the term is a regex-escaped literal, matched case-insensitively, in
files whose name matches `.*\.brs`; the result is keyed by file path in
directory order. -/
def findInFilesFind (project : List SourceFile) (term : String) : List String :=
  (project.filter
    (fun f => strContainsSub f.path ".brs" &&
      strContainsSub (strLower f.contents) (strLower term))).map SourceFile.path

/-- `Object.assign({}, a, b)` on the two search results: the keys of the
first result in order, then the keys only the second contributes. -/
def mergeResultKeys (a b : List String) : List String :=
  a ++ b.filter (fun k => !a.contains k)

/-- `Object.keys(results)[0]` for the merged entry-point search
(lines 582-587). -/
def addEntryBreakpointEntryPath (project : List SourceFile) : Option String :=
  (mergeResultKeys
    (findInFilesFind project "sub RunUserInterface(")
    (findInFilesFind project "sub main(")).head?

/-- The error thrown at line 589. -/
def missingEntryPointMessage : String :=
  "Unable to find an entry point. Please make sure that you have a RunUserInterface or Main sub declared in your BrightScript project"

/-- Lines 587-590: the entry path, or the thrown error when the merged
search result has no keys. -/
def addEntryBreakpointCheck (project : List SourceFile) : Except String String :=
  match addEntryBreakpointEntryPath project with
  | none => Except.error missingEntryPointMessage
  | some p => Except.ok p

/-- Outcome of a launch request as seen by the IDE. -/
structure LaunchOutcome where
  errorResponses : List String
  responded : Bool
  shutdownCalled : Bool
deriving DecidableEq, Repr

/-- The `launchRequest` control flow (lines 97-183) conditioned on the
deploy / connect collaborators succeeding, so that the only modelled
failure is the entry-point error thrown inside
`addBreakpointStatements` → `addEntryBreakpoint`: a thrown error is
caught at line 174 and answered with a single `sendErrorResponse`
followed by `shutdown()`. -/
def launchRequestModel (project : List SourceFile) : LaunchOutcome :=
  match addEntryBreakpointCheck project with
  | Except.error e => { errorResponses := [e], responded := false, shutdownCalled := true }
  | Except.ok _ => { errorResponses := [], responded := true, shutdownCalled := false }

/-! ### Variables and expression evaluation -/

/-- `EvaluateContainer` as delivered by the Roku adapter.
`highLevelType` keeps the source's string tags (including the
`'primative'` spelling). -/
inductive EvaluateContainer where
  | mk (name evaluateName value typeName highLevelType : String)
      (children : List EvaluateContainer)

def EvaluateContainer.evaluateName : EvaluateContainer → String
  | .mk _ e _ _ _ _ => e

def EvaluateContainer.highLevelType : EvaluateContainer → String
  | .mk _ _ _ _ h _ => h

/-- `AugmentedVariable`: the `vscode-debugadapter` `Variable` plus the
`childVariables` augmentation. -/
structure AugVariable where
  name : String
  value : String
  variablesReference : Nat
  namedVariables : Nat
  indexedVariables : Nat
  evaluateName : String
  childVariables : List AugVariable
deriving Inhabited

/-- The session fields owned by expression evaluation:
`evaluateRefIdLookup`, `evaluateRefIdCounter` (initially 1) and the
`variables` cache (src/BuiltinCompletionItems.ts lines 52-55). -/
structure EvalState where
  evaluateRefIdLookup : List (String × Nat)
  evaluateRefIdCounter : Nat
  variablesCache : List (Nat × AugVariable)

/-- The initial evaluation state of a fresh session (counter starts
at 1, both tables empty). -/
def initialEvalState : EvalState :=
  { evaluateRefIdLookup := [], evaluateRefIdCounter := 1, variablesCache := [] }

/-- `getEvaluateRefId` (src/BuiltinCompletionItems.ts lines 707-712):
allocate a reference id for an expression on first sight, reuse it
afterwards.  The JS code tests `!this.evaluateRefIdLookup[expression]`,
which is the `getD 0 = 0` test here because allocated ids start at 1. -/
def getEvaluateRefId (st : EvalState) (expression : String) : EvalState × Nat :=
  let cur := (st.evaluateRefIdLookup.lookup expression).getD 0
  if cur = 0 then
    ({ st with
        evaluateRefIdLookup := (expression, st.evaluateRefIdCounter) :: st.evaluateRefIdLookup,
        evaluateRefIdCounter := st.evaluateRefIdCounter + 1 },
      st.evaluateRefIdCounter)
  else
    (st, cur)

/-- Store a variable in the `variables` cache under a reference id. -/
def setVariableCache (st : EvalState) (refId : Nat) (v : AugVariable) : EvalState :=
  { st with variablesCache := (refId, v) :: st.variablesCache }

mutual

/-- `getVariableFromResult` (src/BuiltinCompletionItems.ts lines
680-705).  Because the source mutates a single object that the
`variables` cache aliases, the fully populated variable (with
`evaluateName` and `childVariables`) is what ends up cached for the
`array` / `object` cases. -/
def getVariableFromResult (st : EvalState) : EvaluateContainer → EvalState × AugVariable
  | .mk name evaluateName value typeName highLevelType children =>
    if highLevelType = "primative" ∨ highLevelType = "uninitialized" then
      let (st1, childVariables) := getVariableListFromResults st children
      (st1, { name, value, variablesReference := 0, namedVariables := 0,
              indexedVariables := 0, evaluateName, childVariables })
    else if highLevelType = "array" then
      let (st1, refId) := getEvaluateRefId st evaluateName
      let (st2, childVariables) := getVariableListFromResults st1 children
      let v : AugVariable :=
        { name, value := typeName, variablesReference := refId,
          namedVariables := 0, indexedVariables := children.length,
          evaluateName, childVariables }
      (setVariableCache st2 refId v, v)
    else if highLevelType = "object" then
      let (st1, refId) := getEvaluateRefId st evaluateName
      let (st2, childVariables) := getVariableListFromResults st1 children
      let v : AugVariable :=
        { name, value := typeName, variablesReference := refId,
          namedVariables := children.length, indexedVariables := 0,
          evaluateName, childVariables }
      (setVariableCache st2 refId v, v)
    else
      let (st1, childVariables) := getVariableListFromResults st children
      (st1, { name, value, variablesReference := 0, namedVariables := 0,
              indexedVariables := 0, evaluateName, childVariables })

/-- The `for (let childContainer of result.children)` recursion of
lines 696-703. -/
def getVariableListFromResults (st : EvalState) :
    List EvaluateContainer → EvalState × List AugVariable
  | [] => (st, [])
  | c :: rest =>
    let (st1, v) := getVariableFromResult st c
    let (st2, vs) := getVariableListFromResults st1 rest
    (st2, v :: vs)

end

/-- The body of an evaluate response. -/
structure EvalBody where
  result : String
  variablesReference : Nat
  namedVariables : Nat
  indexedVariables : Nat
deriving DecidableEq, Repr

/-- The outcome of one `evaluateRequest`: the new evaluation state, the
response body (`none` when the handler calls `sendResponse` without
setting a body), how many `rokuAdapter.getVariable` round trips were
issued, and the emitted output events. -/
structure EvalOutcome where
  state : EvalState
  body : Option EvalBody
  getVariableCalls : Nat
  events : List String

/-- `args.expression.replace(/^print/i, '').trim()` (line 397). -/
def stripPrintWord (expression : String) : String :=
  strTrim (if strStartsWith (strLower expression) "print" then strDrop expression 5 else expression)

/-- The repl expressions excluded at line 417. -/
def excludedExpressions : List String :=
  ["cont", "c", "down", "d", "exit", "over", "o", "out", "step", "s", "t",
    "thread", "th", "up", "u"]

/-- `evaluateRequest` (src/BuiltinCompletionItems.ts lines 393-434).
`getVar` and `adapterEval` stand for the corresponding asynchronous
adapter calls; `isAtDebuggerPrompt` is the adapter's flag. -/
def evaluateRequest (getVar : String → EvaluateContainer)
    (adapterEval : String → String) (st : EvalState)
    (isAtDebuggerPrompt : Bool) (context : String) (expression : String) : EvalOutcome :=
  if isAtDebuggerPrompt then
    if context = "hover" ∨ context = "watch" ∨
        strStartsWith (strTrim (strLower expression)) "print " then
      let expr := stripPrintWord expression
      let (st1, refId) := getEvaluateRefId st expr
      match st1.variablesCache.lookup refId with
      | some v =>
        { state := st1,
          body := some { result := v.value, variablesReference := v.variablesReference,
                         namedVariables := v.namedVariables,
                         indexedVariables := v.indexedVariables },
          getVariableCalls := 0, events := [] }
      | none =>
        let result := getVar expr
        let (st2, v) := getVariableFromResult st1 result
        { state := st2,
          body := some { result := v.value, variablesReference := v.variablesReference,
                         namedVariables := v.namedVariables,
                         indexedVariables := v.indexedVariables },
          getVariableCalls := 1, events := [] }
    else if context = "repl" then
      if excludedExpressions.contains (strTrim (strLower expression)) then
        { state := st, body := none, getVariableCalls := 0,
          events := ["Expression not permitted when debugging in VSCode"] }
      else
        { state := st,
          body := some { result := adapterEval expression, variablesReference := 0,
                         namedVariables := 0, indexedVariables := 0 },
          getVariableCalls := 0, events := [] }
    else
      { state := st, body := none, getVariableCalls := 0, events := [] }
  else
    { state := st, body := none, getVariableCalls := 0, events := [] }

/-- The body of a variables response (its `variables` field). -/
structure VariablesBody where
  vars : List AugVariable

/-- `variablesRequest` (src/BuiltinCompletionItems.ts lines 370-391).
`queryChildren` stands for the
`getVariableFromResult(await getVariable(...)).childVariables` round
trip; the result is `none` when the referenced variable is missing from
the cache (the source would fault on `v.childVariables`). -/
def variablesRequest (isAtDebuggerPrompt : Bool)
    (variablesCache : List (Nat × AugVariable))
    (queryChildren : String → List AugVariable)
    (variablesReference : Nat) : Option VariablesBody :=
  if isAtDebuggerPrompt then
    (variablesCache.lookup variablesReference).map (fun v =>
      let childVariables :=
        if v.childVariables.length = 0 then queryChildren v.evaluateName
        else v.childVariables
      { vars := childVariables })
  else
    some { vars := [] }

/-- A frame as reported by the Roku adapter's `getStackTrace`. -/
structure DebugFrame where
  frameId : Nat
  filePath : String
  lineNumber : Nat
  functionIdentifier : String

/-- A `StackFrame` sent back to the IDE. -/
structure StackFrameModel where
  id : Nat
  name : String
  sourcePath : String
  line : Nat
  column : Nat
deriving DecidableEq, Repr

/-- The body of a stack-trace response. -/
structure StackTraceBody where
  stackFrames : List StackFrameModel
  totalFrames : Nat
deriving DecidableEq, Repr

/-- `stackTraceRequest` (src/BuiltinCompletionItems.ts lines 278-316).
`fixCase` stands for the file-content scan that restores the original
casing of the function identifier (lines 291-297). -/
def stackTraceRequest (joinNorm : String → String → String)
    (stagingDirPaths : List String) (la : LaunchArgsModel)
    (store : List (String × List Breakpoint)) (isAtDebuggerPrompt : Bool)
    (stackTrace : List DebugFrame) (fixCase : String → String → String) : StackTraceBody :=
  if isAtDebuggerPrompt then
    let frames := stackTrace.map (fun debugFrame =>
      let clientPath := convertDebuggerPathToClient joinNorm stagingDirPaths la debugFrame.filePath
      let clientLineNumber := convertDebuggerLineToClientLine joinNorm stagingDirPaths la
        store debugFrame.filePath debugFrame.lineNumber
      { id := debugFrame.frameId,
        name := fixCase clientPath debugFrame.functionIdentifier,
        sourcePath := clientPath, line := clientLineNumber, column := 1 })
    { stackFrames := frames, totalFrames := frames.length }
  else
    { stackFrames := [], totalFrames := 0 }

/-! ### Lemmas about splitting and joining lines -/

theorem splitNlChars_ne_nil (l : List Char) : splitNlChars l ≠ [] := by
  cases l with
  | nil => simp [splitNlChars]
  | cons c rest =>
    simp only [splitNlChars]
    cases h : splitNlChars rest with
    | nil => simp
    | cons h t =>
      by_cases hc : c = '\n' <;> simp [hc]

theorem mem_splitNlChars_no_nl (l : List Char) :
    ∀ p ∈ splitNlChars l, '\n' ∉ p := by
  induction l with
  | nil => intro p hp; simp [splitNlChars] at hp; simp [hp]
  | cons c rest ih =>
    intro p hp
    simp only [splitNlChars] at hp
    cases h : splitNlChars rest with
    | nil => exact absurd h (splitNlChars_ne_nil rest)
    | cons hd tl =>
      rw [h] at hp
      by_cases hc : c = '\n'
      · simp [hc] at hp
        rcases hp with hp | hp | hp
        · simp [hp]
        · subst hp; exact ih p (h ▸ List.mem_cons_self p tl)
        · exact ih p (h ▸ List.mem_cons_of_mem hd hp)
      · simp [hc] at hp
        rcases hp with hp | hp
        · subst hp
          intro hmem
          rcases List.mem_cons.mp hmem with h1 | h1
          · exact hc h1.symm
          · exact ih hd (h ▸ List.mem_cons_self hd tl) h1
        · exact ih p (h ▸ List.mem_cons_of_mem hd hp)

theorem splitNlChars_of_no_nl {l : List Char} (h : '\n' ∉ l) :
    splitNlChars l = [l] := by
  induction l with
  | nil => simp [splitNlChars]
  | cons c rest ih =>
    have hc : c ≠ '\n' := fun hc => h (hc ▸ List.mem_cons_self c rest)
    have hrest : '\n' ∉ rest := fun hm => h (List.mem_cons_of_mem c hm)
    simp only [splitNlChars, ih hrest]
    simp [hc]

theorem splitNlChars_append_nl (a b : List Char) :
    splitNlChars (a ++ '\n' :: b) = splitNlChars a ++ splitNlChars b := by
  induction a with
  | nil =>
    simp only [List.nil_append, splitNlChars]
    cases h : splitNlChars b with
    | nil => exact absurd h (splitNlChars_ne_nil b)
    | cons hd tl => simp
  | cons c a' ih =>
    simp only [List.cons_append, splitNlChars, List.append_eq]
    rw [ih]
    cases h : splitNlChars a' with
    | nil => exact absurd h (splitNlChars_ne_nil a')
    | cons hd tl =>
      by_cases hc : c = '\n' <;> simp [hc]

theorem splitNlChars_joinNlChars (L : List (List Char)) (h : L ≠ []) :
    splitNlChars (joinNlChars L) = (L.map splitNlChars).flatten := by
  induction L with
  | nil => exact absurd rfl h
  | cons x rest ih =>
    cases rest with
    | nil => simp [joinNlChars, splitNlChars]
    | cons y t =>
      simp only [joinNlChars, List.map_cons, List.flatten_cons,
        splitNlChars_append_nl]
      rw [ih (by simp)]
      simp

theorem splitNl_joinNl (lines : List String) (h : lines ≠ []) :
    splitNl (joinNl lines) = (lines.map splitNl).flatten := by
  simp only [splitNl, joinNl]
  rw [splitNlChars_joinNlChars _ (by simpa using h)]
  rw [List.map_flatten, List.map_map, List.map_map]
  rfl

/-! ### Lemmas about the stop-line rewriting -/

theorem stopify_data (s : String) :
    (stopify s).data = 'S' :: 'T' :: 'O' :: 'P' :: '\n' :: (s.data ++ [' ']) := by
  simp [stopify, String.data_append]

theorem stopify_iterate_data (s : String) (k : Nat) :
    (stopify^[k] s).data =
      (List.replicate k ['S', 'T', 'O', 'P', '\n']).flatten ++ s.data ++ List.replicate k ' ' := by
  induction k with
  | zero => simp
  | succ k ih =>
    rw [Function.iterate_succ_apply', stopify_data, ih, List.replicate_succ,
      List.flatten_cons, List.replicate_succ' (n := k)]
    simp

theorem splitNlChars_stop_blocks (t : List Char) (ht : '\n' ∉ t) (k : Nat) :
    splitNlChars ((List.replicate k ['S', 'T', 'O', 'P', '\n']).flatten ++ t) =
      List.replicate k ['S', 'T', 'O', 'P'] ++ [t] := by
  induction k with
  | zero => simp [splitNlChars_of_no_nl ht]
  | succ k ih =>
    rw [List.replicate_succ, List.flatten_cons]
    have : (['S', 'T', 'O', 'P', '\n'] ++ (List.replicate k ['S', 'T', 'O', 'P', '\n']).flatten) ++ t =
        ['S', 'T', 'O', 'P'] ++ '\n' :: ((List.replicate k ['S', 'T', 'O', 'P', '\n']).flatten ++ t) := by
      simp
    rw [this, splitNlChars_append_nl, ih, splitNlChars_of_no_nl (by decide)]
    simp [List.replicate_succ]

/-- Splitting a line rewritten by `k` breakpoint visits: `k` `STOP`
lines, then the original line with `k` trailing spaces. -/
theorem splitNl_stopify_iterate (s : String) (hs : '\n' ∉ s.data) (k : Nat) :
    splitNl (stopify^[k] s) =
      List.replicate k "STOP" ++ [s ++ spacesStr k] := by
  have ht : '\n' ∉ s.data ++ List.replicate k ' ' := by
    intro h
    rcases List.mem_append.mp h with h | h
    · exact hs h
    · simp at h
  have hdata : (s ++ spacesStr k).data = s.data ++ List.replicate k ' ' := by
    simp [spacesStr, String.data_append]
  simp only [splitNl, stopify_iterate_data, List.append_assoc]
  rw [splitNlChars_stop_blocks _ ht]
  simp only [List.map_append, List.map_replicate]
  rfl

theorem addStopsToLines_nil (lines : List String) : addStopsToLines lines [] = lines := rfl

theorem addStopsToLines_cons (lines : List String) (bp : Breakpoint) (rest : List Breakpoint) :
    addStopsToLines lines (bp :: rest) =
      addStopsToLines
        (lines.set (bp.line - 1) (stopify ((lines.get? (bp.line - 1)).getD "undefined")))
        rest := rfl

theorem addStopsToLines_length (bps : List Breakpoint) (lines : List String) :
    (addStopsToLines lines bps).length = lines.length := by
  induction bps generalizing lines with
  | nil => rfl
  | cons bp rest ih =>
    rw [addStopsToLines_cons, ih, List.length_set]

/-- Each slot of the rewritten line array holds the original line passed
through `stopify` once per breakpoint targeting it. -/
theorem addStopsToLines_getElem? (bps : List Breakpoint) (lines : List String)
    (hb : ∀ bp ∈ bps, 1 ≤ bp.line ∧ bp.line ≤ lines.length) (i : Nat) :
    (addStopsToLines lines bps)[i]? =
      (lines[i]?).map (stopify^[bps.countP (fun bp => decide (bp.line - 1 = i))]) := by
  induction bps generalizing lines with
  | nil => simp [addStopsToLines_nil]
  | cons bp rest ih =>
    have hbp := hb bp (List.mem_cons_self bp rest)
    have hidx : bp.line - 1 < lines.length := by omega
    rw [addStopsToLines_cons]
    have hb' : ∀ b ∈ rest,
        1 ≤ b.line ∧ b.line ≤ (lines.set (bp.line - 1)
          (stopify ((lines.get? (bp.line - 1)).getD "undefined"))).length := by
      intro b hbm
      simpa [List.length_set] using hb b (List.mem_cons_of_mem bp hbm)
    rw [ih _ hb']
    by_cases hcase : bp.line - 1 = i
    · subst hcase
      have hsome : lines.get? (bp.line - 1) = some lines[bp.line - 1] := by
        rw [List.get?_eq_getElem?]
        exact List.getElem?_eq_getElem hidx
      rw [List.getElem?_set_self (by simpa using hidx), hsome]
      rw [List.getElem?_eq_getElem hidx]
      simp [List.countP_cons, Function.iterate_succ_apply]
    · rw [List.getElem?_set_ne (by omega)]
      congr 1
      rw [List.countP_cons]
      simp [hcase]

theorem countP_line_le_succ (bps : List Breakpoint) (j : Nat) :
    bps.countP (fun bp => decide (bp.line ≤ j + 1)) =
      bps.countP (fun bp => decide (bp.line ≤ j)) +
        bps.countP (fun bp => decide (bp.line = j + 1)) := by
  induction bps with
  | nil => rfl
  | cons b rest ih =>
    simp only [List.countP_cons, ih, decide_eq_true_eq]
    split_ifs <;> omega

/-! ### Locating lines in the injected file -/

theorem flatten_getElem_block (bs : List (List String)) :
    ∀ (j t : Nat) (blk : List String), bs[j]? = some blk → t < blk.length →
      bs.flatten[((bs.take j).map List.length).sum + t]? = blk[t]? := by
  induction bs with
  | nil => intro j t blk h; simp at h
  | cons b rest ih =>
    intro j t blk h ht
    cases j with
    | zero =>
      simp only [List.getElem?_cons_zero, Option.some.injEq] at h
      subst h
      simp only [List.take_zero, List.map_nil, List.sum_nil, Nat.zero_add,
        List.flatten_cons]
      rw [List.getElem?_append, if_pos ht]
    | succ j =>
      simp only [List.getElem?_cons_succ] at h
      simp only [List.take_succ_cons, List.map_cons, List.sum_cons, List.flatten_cons]
      rw [Nat.add_assoc, List.getElem?_append_right (Nat.le_add_right _ _),
        Nat.add_sub_cancel_left]
      exact ih j t blk h ht

theorem deviceView_eq_blocks (contents : String) (bps : List Breakpoint) :
    deviceView contents bps =
      ((addStopsToLines (splitNl contents) bps).map splitNl).flatten := by
  have hne : addStopsToLines (splitNl contents) bps ≠ [] := by
    have h1 : (addStopsToLines (splitNl contents) bps).length = (splitNl contents).length :=
      addStopsToLines_length bps (splitNl contents)
    have h2 : (splitNl contents).length ≠ 0 := by
      simp only [splitNl, List.length_map]
      intro h
      exact splitNlChars_ne_nil contents.data (List.eq_nil_of_length_eq_zero h)
    intro h
    rw [h] at h1
    exact h2 h1.symm
  unfold deviceView addBreakpointStatementsFile
  exact splitNl_joinNl _ hne

theorem splitNl_no_nl (contents : String) (j : Nat)
    (orig : String) (horig : (splitNl contents)[j]? = some orig) : '\n' ∉ orig.data := by
  have hmem : orig ∈ splitNl contents := by
    exact List.getElem?_mem horig
  simp only [splitNl, List.mem_map] at hmem
  obtain ⟨piece, hpiece, rfl⟩ := hmem
  exact mem_splitNlChars_no_nl contents.data piece hpiece

/-- The `j`-th block of the injected file: `k` `STOP` lines followed by
the original line (with `k` trailing spaces), where `k` counts the
breakpoints targeting slot `j`. -/
theorem injected_block_getElem (contents : String) (bps : List Breakpoint)
    (hb : ∀ bp ∈ bps, 1 ≤ bp.line ∧ bp.line ≤ (splitNl contents).length)
    (j : Nat) (orig : String)
    (horig : (splitNl contents)[j]? = some orig) :
    ((addStopsToLines (splitNl contents) bps).map splitNl)[j]? =
      some (List.replicate (bps.countP (fun bp => decide (bp.line - 1 = j))) "STOP" ++
        [orig ++ spacesStr (bps.countP (fun bp => decide (bp.line - 1 = j)))]) := by
  rw [List.getElem?_map, addStopsToLines_getElem? bps _ hb j, horig]
  simp only [Option.map_some']
  rw [splitNl_stopify_iterate orig (splitNl_no_nl contents j orig horig)]

/-- Cumulative length of the first `j` blocks: `j` original lines plus
one injected line per breakpoint at line at most `j`. -/
theorem injected_blocks_take_sum (contents : String) (bps : List Breakpoint)
    (hb : ∀ bp ∈ bps, 1 ≤ bp.line ∧ bp.line ≤ (splitNl contents).length) :
    ∀ j, j ≤ (splitNl contents).length →
      ((((addStopsToLines (splitNl contents) bps).map splitNl).take j).map List.length).sum =
        j + bps.countP (fun bp => decide (bp.line ≤ j)) := by
  intro j
  induction j with
  | zero =>
    intro _
    simp only [List.take_zero, List.map_nil, List.sum_nil]
    have : bps.countP (fun bp => decide (bp.line ≤ 0)) = 0 := by
      rw [List.countP_eq_zero]
      intro bp hbp
      have := (hb bp hbp).1
      simp
      omega
    omega
  | succ j ih =>
    intro hj
    have hjlt : j < (splitNl contents).length := by omega
    obtain ⟨orig, horig⟩ : ∃ orig, (splitNl contents)[j]? = some orig :=
      ⟨_, List.getElem?_eq_getElem hjlt⟩
    rw [List.take_succ, injected_block_getElem contents bps hb j orig horig]
    simp only [List.map_append, List.sum_append, Option.toList_some, List.map_cons,
      List.map_nil, List.sum_cons, List.sum_nil]
    rw [ih (by omega)]
    have hcongr : bps.countP (fun bp => decide (bp.line - 1 = j)) =
        bps.countP (fun bp => decide (bp.line = j + 1)) := by
      apply List.countP_congr
      intro bp hbp
      have := (hb bp hbp).1
      simp
      omega
    rw [hcongr, countP_line_le_succ]
    simp [List.length_replicate]
    omega

/-- The total line count of the injected file: one extra line per
breakpoint. -/
theorem deviceView_length (contents : String) (bps : List Breakpoint)
    (hb : ∀ bp ∈ bps, 1 ≤ bp.line ∧ bp.line ≤ (splitNl contents).length) :
    (deviceView contents bps).length = (splitNl contents).length + bps.length := by
  rw [deviceView_eq_blocks, List.length_flatten]
  have hlen : ((addStopsToLines (splitNl contents) bps).map splitNl).length =
      (splitNl contents).length := by
    rw [List.length_map, addStopsToLines_length]
  have := injected_blocks_take_sum contents bps hb (splitNl contents).length (Nat.le_refl _)
  rw [List.take_of_length_le (by omega)] at this
  rw [this]
  congr 1
  rw [List.countP_eq_length]
  intro bp hbp
  have := (hb bp hbp).2
  simpa using this

/-- After injection, the content of original (1-based) line `L` sits at
1-based device line `L + (number of breakpoints with line ≤ L)`,
carrying one trailing space per breakpoint on line `L` itself. -/
theorem deviceView_getElem_line (contents : String) (bps : List Breakpoint)
    (hb : ∀ bp ∈ bps, 1 ≤ bp.line ∧ bp.line ≤ (splitNl contents).length)
    (L : Nat) (hL1 : 1 ≤ L) (hLn : L ≤ (splitNl contents).length)
    (orig : String) (horig : (splitNl contents)[L - 1]? = some orig) :
    (deviceView contents bps)[(L + bps.countP (fun bp => decide (bp.line ≤ L))) - 1]? =
      some (orig ++ spacesStr (bps.countP (fun bp => decide (bp.line = L)))) := by
  rw [deviceView_eq_blocks]
  have hjlt : L - 1 < (splitNl contents).length := by omega
  have hblk := injected_block_getElem contents bps hb (L - 1) orig horig
  have hk : bps.countP (fun bp => decide (bp.line - 1 = L - 1)) =
      bps.countP (fun bp => decide (bp.line = L)) := by
    apply List.countP_congr
    intro bp hbp
    have := (hb bp hbp).1
    simp
    omega
  set k := bps.countP (fun bp => decide (bp.line = L)) with hkdef
  rw [hk] at hblk
  have hflat := flatten_getElem_block _ (L - 1) k _ hblk
    (by simp [List.length_replicate])
  rw [injected_blocks_take_sum contents bps hb (L - 1) (by omega)] at hflat
  have hsplit : bps.countP (fun bp => decide (bp.line ≤ L)) =
      bps.countP (fun bp => decide (bp.line ≤ L - 1)) + k := by
    have := countP_line_le_succ bps (L - 1)
    rw [hkdef]
    have hL : L - 1 + 1 = L := by omega
    rw [hL] at this
    exact this
  have hidx : (L + bps.countP (fun bp => decide (bp.line ≤ L))) - 1 =
      L - 1 + bps.countP (fun bp => decide (bp.line ≤ L - 1)) + k := by omega
  rw [hidx]
  rw [Nat.add_assoc] at hflat ⊢
  rw [hflat]
  rw [List.getElem?_append_right (by simp [List.length_replicate])]
  simp [List.length_replicate]

/-- After injection, a `STOP` line sits immediately before the line of
each breakpoint: at 1-based device line
`b.line + (number of breakpoints with line < b.line)`. -/
theorem deviceView_getElem_stop (contents : String) (bps : List Breakpoint)
    (hb : ∀ bp ∈ bps, 1 ≤ bp.line ∧ bp.line ≤ (splitNl contents).length)
    (b : Breakpoint) (hmem : b ∈ bps) :
    (deviceView contents bps)[(b.line + bps.countP (fun bp => decide (bp.line < b.line))) - 1]? =
      some "STOP" := by
  rw [deviceView_eq_blocks]
  have hbb := hb b hmem
  have hjlt : b.line - 1 < (splitNl contents).length := by omega
  obtain ⟨orig, horig⟩ : ∃ orig, (splitNl contents)[b.line - 1]? = some orig :=
    ⟨_, List.getElem?_eq_getElem hjlt⟩
  have hblk := injected_block_getElem contents bps hb (b.line - 1) orig horig
  have hkpos : 0 < bps.countP (fun bp => decide (bp.line - 1 = b.line - 1)) := by
    rw [List.countP_pos_iff]
    exact ⟨b, hmem, by simp⟩
  have hflat := flatten_getElem_block _ (b.line - 1) 0 _ hblk
    (by simp [List.length_replicate])
  rw [injected_blocks_take_sum contents bps hb (b.line - 1) (by omega)] at hflat
  have hcongr : bps.countP (fun bp => decide (bp.line ≤ b.line - 1)) =
      bps.countP (fun bp => decide (bp.line < b.line)) := by
    apply List.countP_congr
    intro bp hbp
    have h1 := (hb bp hbp).1
    simp
    omega
  have hidx : (b.line + bps.countP (fun bp => decide (bp.line < b.line))) - 1 =
      b.line - 1 + bps.countP (fun bp => decide (bp.line ≤ b.line - 1)) + 0 := by
    rw [hcongr]
    omega
  rw [hidx, hflat]
  rw [List.getElem?_append, if_pos (by simpa [List.length_replicate] using hkpos),
    List.getElem?_replicate, if_pos hkpos]

/-! ### The correction loop inverts the injection shift -/

/-- For a line-ascending breakpoint list, the correction loop maps
`L + (number of breakpoints with line ≤ L)` back to `L`. -/
theorem convertLineLoop_inverse (bps : List Breakpoint)
    (hsorted : bps.Pairwise bpLineLe) (L : Nat) :
    convertLineLoop bps (L + bps.countP (fun bp => decide (bp.line ≤ L))) = L := by
  induction bps with
  | nil => simp [convertLineLoop]
  | cons bp rest ih =>
    have hhead : ∀ b ∈ rest, bp.line ≤ b.line := fun b hb =>
      (List.pairwise_cons.mp hsorted).1 b hb
    have hrest := (List.pairwise_cons.mp hsorted).2
    by_cases hle : bp.line ≤ L
    · have hcount : (bp :: rest).countP (fun b => decide (b.line ≤ L)) =
          rest.countP (fun b => decide (b.line ≤ L)) + 1 := by
        simp [List.countP_cons, hle]
      rw [hcount]
      simp only [convertLineLoop]
      rw [if_pos (by omega)]
      have : L + (rest.countP (fun b => decide (b.line ≤ L)) + 1) - 1 =
          L + rest.countP (fun b => decide (b.line ≤ L)) := by omega
      rw [this]
      exact ih hrest
    · have hcount : (bp :: rest).countP (fun b => decide (b.line ≤ L)) = 0 := by
        rw [List.countP_eq_zero]
        intro b hb
        rcases List.mem_cons.mp hb with h | h
        · subst h; simpa using hle
        · have := hhead b h
          simp
          omega
      rw [hcount]
      simp only [convertLineLoop, Nat.add_zero]
      rw [if_neg (by omega)]

section Sanity
example : extname "src/widgets/Button.brs" = ".brs" := by decide
example : extname "src/.brs" = "" := by decide
example : extname "src/app" = "" := by decide
example : extname "a.BRS" = ".BRS" := by decide
example :
    (setBreakPointsRequest id ⟨[], 0, false⟩ "main.brs" [3, 7]).2.1 =
      some [⟨0, 3, true⟩, ⟨1, 7, true⟩] := by decide
example :
    (setBreakPointsRequest id ⟨[], 0, false⟩ "main.xml" [3]).2.1 = some [] := by decide
example :
    (setBreakPointsRequest id ⟨[], 0, true⟩ "main.brs" [3]).2.1 = none := by decide
-- spec §8 scenario: 4-line file, breakpoint on client line 3
example :
    deviceView "sub main()\nprint \"a\"\nprint \"b\"\nend sub" [⟨0, 3, true⟩] =
      ["sub main()", "print \"a\"", "STOP", "print \"b\" ", "end sub"] := by decide
example :
    convertDebuggerLineToClientLine (fun a b => a ++ "/" ++ b) [] ⟨"root", none⟩
      [("root//pkg/main.brs", [⟨0, 3, true⟩])] "pkg:/pkg/main.brs" 4 = 3 := by decide
example :
    convertDebuggerPathToClient (fun a b => a ++ "/" ++ b)
      ["source/widgets/Button.brs"] ⟨"root", none⟩ ".../widgets/Button.brs" =
      "root/source/widgets/Button.brs" := by decide
example :
    convertDebuggerPathToClient (fun a b => a ++ "/" ++ b)
      ["source/widgets/Button.brs", "other/widgets/Button.brs"] ⟨"root", none⟩
      ".../widgets/Button.brs" = "root//widgets/Button.brs" := by decide
-- entry breakpoint dropped when a user breakpoint shares its line
example :
    mergeEntryBreakpoint [⟨0, 2, true⟩] ⟨1, 2, true⟩ = ([⟨0, 2, true⟩], none) := by decide
-- entry breakpoint kept on an adjacent line number
example :
    mergeEntryBreakpoint [⟨0, 3, true⟩] ⟨1, 2, true⟩ =
      ([⟨1, 2, true⟩, ⟨0, 3, true⟩], some ⟨1, 2, true⟩) := by decide
example :
    addEntryBreakpointCheck [⟨"source/app.brs", "sub helper()\nend sub"⟩] =
      Except.error missingEntryPointMessage := rfl
example :
    addEntryBreakpointCheck [⟨"source/app.brs", "Sub Main()\nprint 1\nend sub"⟩] =
      Except.ok "source/app.brs" := rfl
-- evaluation-reference cache: object result is cached, second request hits it
example :
    (let getVar := fun e => EvaluateContainer.mk "x" e "val" "roAssociativeArray" "object" []
     let first := evaluateRequest getVar (fun _ => "") initialEvalState true "watch" "x"
     let second := evaluateRequest getVar (fun _ => "") first.state true "watch" "x"
     (first.getVariableCalls, second.getVariableCalls,
       first.body.map EvalBody.variablesReference,
       second.body.map EvalBody.variablesReference)) = (1, 0, some 1, some 1) := rfl
-- a primitive result is not cached: the device is queried both times
example :
    (let getVar := fun e => EvaluateContainer.mk "x" e "5" "Integer" "primative" []
     let first := evaluateRequest getVar (fun _ => "") initialEvalState true "watch" "x"
     let second := evaluateRequest getVar (fun _ => "") first.state true "watch" "x"
     (first.getVariableCalls, second.getVariableCalls)) = (1, 1) := rfl
end Sanity

/-! ### Claims -/

/-- C1 (counterexample): the round trip is NOT exact for every stored
arrangement of breakpoints.  With breakpoints recorded in the order
[line 5, line 1], the content of original client line 1 sits at device
line 2 after injection, yet `convertDebuggerLineToClientLine` returns
2, not 1: its early-exit walk sees line 5 first and stops before
discounting the breakpoint at line 1. -/
theorem convertDebuggerLineToClientLine_unsorted_counterexample :
    (deviceView "l1\nl2\nl3\nl4\nl5" [⟨0, 5, true⟩, ⟨1, 1, true⟩])[2 - 1]? = some "l1 " ∧
    convertDebuggerLineToClientLine (fun a b => a ++ "/" ++ b) [] ⟨"root", none⟩
      [("root/x", [⟨0, 5, true⟩, ⟨1, 1, true⟩])] "pkg:x" 2 = 2 ∧ (2 : Nat) ≠ 1 := by
  refine ⟨by decide, by decide, by decide⟩

/-- C1 (amended): when the breakpoints recorded for the file are in
ascending line order (the data-model invariant), the round trip is
exact: after injection, original client line `L` sits at device line
`L + #(breakpoints with line ≤ L)`, and
`convertDebuggerLineToClientLine` maps that device line back to `L`,
for any number and placement of breakpoints in the file. -/
theorem convertDebuggerLineToClientLine_round_trip
    (joinNorm : String → String → String) (stagingDirPaths : List String)
    (la : LaunchArgsModel) (store : List (String × List Breakpoint))
    (debuggerPath : String) (contents : String) (bps : List Breakpoint)
    (L : Nat) (orig : String)
    (hlookup : store.lookup
      (convertDebuggerPathToClient joinNorm stagingDirPaths la debuggerPath) = some bps)
    (hsorted : bps.Pairwise bpLineLe)
    (hb : ∀ bp ∈ bps, 1 ≤ bp.line ∧ bp.line ≤ (splitNl contents).length)
    (hL1 : 1 ≤ L) (hLn : L ≤ (splitNl contents).length)
    (horig : (splitNl contents)[L - 1]? = some orig) :
    (deviceView contents bps)[(L + bps.countP (fun bp => decide (bp.line ≤ L))) - 1]? =
      some (orig ++ spacesStr (bps.countP (fun bp => decide (bp.line = L)))) ∧
    convertDebuggerLineToClientLine joinNorm stagingDirPaths la store debuggerPath
      (L + bps.countP (fun bp => decide (bp.line ≤ L))) = L := by
  constructor
  · exact deviceView_getElem_line contents bps hb L hL1 hLn orig horig
  · simp only [convertDebuggerLineToClientLine]
    rw [hlookup, Option.getD_some]
    exact convertLineLoop_inverse bps hsorted L

/-- C1 witness: a file of four lines with ascending breakpoints on
lines 1 and 3; original line 3 sits at device line 5 and converts back
to 3. -/
theorem convertDebuggerLineToClientLine_round_trip_witness :
    (deviceView "l1\nl2\nl3\nl4" [⟨0, 1, true⟩, ⟨1, 3, true⟩])[(3 + 2) - 1]? =
      some ("l3" ++ spacesStr 1) ∧
    convertDebuggerLineToClientLine (fun a b => a ++ "/" ++ b) [] ⟨"root", none⟩
      [("root/x", [⟨0, 1, true⟩, ⟨1, 3, true⟩])] "pkg:x" (3 + 2) = 3 := by
  have h := convertDebuggerLineToClientLine_round_trip (fun a b => a ++ "/" ++ b) []
    ⟨"root", none⟩ [("root/x", [⟨0, 1, true⟩, ⟨1, 3, true⟩])] "pkg:x"
    "l1\nl2\nl3\nl4" [⟨0, 1, true⟩, ⟨1, 3, true⟩] 3 "l3"
    (by decide) (by decide) (by decide) (by decide) (by decide) (by decide)
  exact h

/-- With pairwise-distinct breakpoint lines, exactly one breakpoint
targets line `b.line`. -/
theorem countP_line_eq_one_of_nodup (bps : List Breakpoint)
    (hnodup : (bps.map Breakpoint.line).Nodup) (b : Breakpoint) (hmem : b ∈ bps) :
    bps.countP (fun bp => decide (bp.line = b.line)) = 1 := by
  have hmemline : b.line ∈ bps.map Breakpoint.line := List.mem_map_of_mem _ hmem
  have hcount := List.count_eq_one_of_mem hnodup hmemline
  rw [List.count, List.countP_map] at hcount
  rw [← hcount]
  apply List.countP_congr
  intro bp _
  simp [Function.comp]

/-- C3: for a file whose breakpoints target pairwise-distinct, in-range
lines, injection grows the file by exactly one line per breakpoint,
puts a `STOP` line at device line `b.line + #(breakpoints below it)`
for every breakpoint `b` (i.e. immediately before the shifted target
line), and reproduces the original target line — with a trailing space
appended — on the line right after that `STOP`.  The mutation is
written back to the staged copy of the file; only its content
transformation is modelled here. -/
theorem addBreakpointStatements_injection (contents : String) (bps : List Breakpoint)
    (hb : ∀ bp ∈ bps, 1 ≤ bp.line ∧ bp.line ≤ (splitNl contents).length)
    (hnodup : (bps.map Breakpoint.line).Nodup) :
    (deviceView contents bps).length = (splitNl contents).length + bps.length ∧
    ∀ b ∈ bps,
      (deviceView contents bps)[(b.line + bps.countP (fun bp => decide (bp.line < b.line))) - 1]? =
        some "STOP" ∧
      ∃ orig, (splitNl contents)[b.line - 1]? = some orig ∧
        (deviceView contents bps)[b.line + bps.countP (fun bp => decide (bp.line < b.line))]? =
          some (orig ++ " ") := by
  refine ⟨deviceView_length contents bps hb, ?_⟩
  intro b hmem
  have hbb := hb b hmem
  refine ⟨deviceView_getElem_stop contents bps hb b hmem, ?_⟩
  have hjlt : b.line - 1 < (splitNl contents).length := by omega
  obtain ⟨orig, horig⟩ : ∃ orig, (splitNl contents)[b.line - 1]? = some orig :=
    ⟨_, List.getElem?_eq_getElem hjlt⟩
  refine ⟨orig, horig, ?_⟩
  have hone := countP_line_eq_one_of_nodup bps hnodup b hmem
  have hline := deviceView_getElem_line contents bps hb b.line (by omega) (by omega) orig horig
  have hsplit : bps.countP (fun bp => decide (bp.line ≤ b.line)) =
      bps.countP (fun bp => decide (bp.line < b.line)) + 1 := by
    have hstep := countP_line_le_succ bps (b.line - 1)
    have hL : b.line - 1 + 1 = b.line := by omega
    rw [hL] at hstep
    have hcongr : bps.countP (fun bp => decide (bp.line ≤ b.line - 1)) =
        bps.countP (fun bp => decide (bp.line < b.line)) := by
      apply List.countP_congr
      intro bp hbp
      have := (hb bp hbp).1
      simp
      omega
    omega
  have hidx : (b.line + bps.countP (fun bp => decide (bp.line ≤ b.line))) - 1 =
      b.line + bps.countP (fun bp => decide (bp.line < b.line)) := by omega
  rw [hidx, hone] at hline
  exact hline

/-- C3 witness: the spec scenario — a four-line program with a
breakpoint on client line 3 becomes five device lines, with `STOP` on
device line 3 and the original line-3 content (plus a trailing space)
on device line 4. -/
theorem addBreakpointStatements_injection_witness :
    (deviceView "sub main()\nprint \"a\"\nprint \"b\"\nend sub" [⟨0, 3, true⟩]).length =
      (splitNl "sub main()\nprint \"a\"\nprint \"b\"\nend sub").length + 1 ∧
    (deviceView "sub main()\nprint \"a\"\nprint \"b\"\nend sub" [⟨0, 3, true⟩])[(3 + 0) - 1]? =
      some "STOP" ∧
    ∃ orig,
      (splitNl "sub main()\nprint \"a\"\nprint \"b\"\nend sub")[3 - 1]? = some orig ∧
      (deviceView "sub main()\nprint \"a\"\nprint \"b\"\nend sub" [⟨0, 3, true⟩])[3 + 0]? =
        some (orig ++ " ") := by
  have h := addBreakpointStatements_injection
    "sub main()\nprint \"a\"\nprint \"b\"\nend sub" [⟨0, 3, true⟩]
    (by decide) (by decide)
  refine ⟨h.1, ?_, ?_⟩
  · exact (h.2 ⟨0, 3, true⟩ (by decide)).1
  · exact (h.2 ⟨0, 3, true⟩ (by decide)).2

/-- C2 (amended): a breakpoint request that arrives after
`launchRequest` only emits the warning; the stored breakpoints and the
id counter are untouched, and no response at all is produced (the
handler returns before `sendResponse`, so not even an empty list is
returned). -/
theorem setBreakPointsRequest_after_launch (normalize : String → String)
    (store : List (String × List Breakpoint)) (counter : Nat)
    (sourcePath : String) (lines : List Nat) :
    setBreakPointsRequest normalize ⟨store, counter, true⟩ sourcePath lines =
      (⟨store, counter, true⟩, none, [breakpointsAfterLaunchWarning]) := rfl

/-- C2 (counterexample): after launch the handler does not return an
empty verified breakpoint list — it returns no response at all. -/
theorem setBreakPointsRequest_after_launch_counterexample :
    (setBreakPointsRequest id ⟨[], 0, true⟩ "main.brs" [3]).2.1 = none ∧
    (setBreakPointsRequest id ⟨[], 0, true⟩ "main.brs" [3]).2.1 ≠ some [] := by
  refine ⟨by decide, by decide⟩

/-- C10: a pre-launch breakpoint request for a source path whose
extension is not `.brs` (case-insensitively) answers with an empty
breakpoint list and leaves the whole breakpoint state unchanged. -/
theorem setBreakPointsRequest_non_brs (normalize : String → String)
    (st : BreakpointState) (sourcePath : String) (lines : List Nat)
    (hlaunch : st.launchRequestWasCalled = false)
    (hext : strLower (extname (normalize sourcePath)) ≠ ".brs") :
    setBreakPointsRequest normalize st sourcePath lines = (st, some [], []) := by
  simp [setBreakPointsRequest, hlaunch, hext]

/-- C10 witness: a `.xml` file pre-launch gets an empty list and no
stored breakpoints. -/
theorem setBreakPointsRequest_non_brs_witness :
    setBreakPointsRequest id ⟨[], 0, false⟩ "main.xml" [3] = (⟨[], 0, false⟩, some [], []) :=
  setBreakPointsRequest_non_brs id ⟨[], 0, false⟩ "main.xml" [3] rfl (by decide)

theorem allocateBreakpoints_map_line (counter : Nat) (lines : List Nat) :
    (allocateBreakpoints counter lines).map Breakpoint.line = lines := by
  induction lines generalizing counter with
  | nil => rfl
  | cons l rest ih => simp [allocateBreakpoints, ih]

theorem allocateBreakpoints_map_id (counter : Nat) (lines : List Nat) :
    (allocateBreakpoints counter lines).map Breakpoint.id =
      List.range' counter lines.length := by
  induction lines generalizing counter with
  | nil => rfl
  | cons l rest ih => simp [allocateBreakpoints, ih, List.range']

theorem allocateBreakpoints_verified (counter : Nat) (lines : List Nat) :
    ∀ b ∈ allocateBreakpoints counter lines, b.verified = true := by
  induction lines generalizing counter with
  | nil => intro b hb; simp [allocateBreakpoints] at hb
  | cons l rest ih =>
    intro b hb
    rcases List.mem_cons.mp hb with h | h
    · subst h; rfl
    · exact ih (counter + 1) b h

/-- C9 (amended): a pre-launch breakpoint request for a `.brs` path
replaces the entire stored set for that client path with newly
allocated breakpoints: one per requested line (in order), consecutive
fresh ids continuing the monotonic session counter, every breakpoint
verified, and the counter advanced past them — so a subsequently
allocated entry breakpoint draws the next id from the same counter. -/
theorem setBreakPointsRequest_pre_launch_brs (normalize : String → String)
    (st : BreakpointState) (sourcePath : String) (lines : List Nat) (entryLine : Nat)
    (hlaunch : st.launchRequestWasCalled = false)
    (hext : strLower (extname (normalize sourcePath)) = ".brs") :
    ∃ bps,
      (setBreakPointsRequest normalize st sourcePath lines).2.1 = some bps ∧
      ((setBreakPointsRequest normalize st sourcePath lines).1.breakpointsByClientPath.lookup
        (normalize sourcePath)) = some bps ∧
      bps.map Breakpoint.line = lines ∧
      bps.map Breakpoint.id = List.range' st.breakpointIdCounter lines.length ∧
      (∀ b ∈ bps, b.verified = true) ∧
      (setBreakPointsRequest normalize st sourcePath lines).1.breakpointIdCounter =
        st.breakpointIdCounter + lines.length ∧
      (allocEntryBreakpoint (setBreakPointsRequest normalize st sourcePath lines).1
        entryLine).2.id = st.breakpointIdCounter + lines.length := by
  have hbranch : setBreakPointsRequest normalize st sourcePath lines =
      ({ st with
          breakpointsByClientPath := storeSet st.breakpointsByClientPath (normalize sourcePath)
            (allocateBreakpoints st.breakpointIdCounter lines),
          breakpointIdCounter := st.breakpointIdCounter + lines.length },
        some (allocateBreakpoints st.breakpointIdCounter lines), []) := by
    simp [setBreakPointsRequest, hlaunch, hext]
  refine ⟨allocateBreakpoints st.breakpointIdCounter lines, ?_, ?_, ?_, ?_, ?_, ?_, ?_⟩
  · rw [hbranch]
  · rw [hbranch]
    simp [storeSet]
  · exact allocateBreakpoints_map_line st.breakpointIdCounter lines
  · exact allocateBreakpoints_map_id st.breakpointIdCounter lines
  · exact allocateBreakpoints_verified st.breakpointIdCounter lines
  · rw [hbranch]
  · rw [hbranch]
    rfl

/-- C9 witness: two breakpoints on a `.brs` file get ids 0 and 1,
verified, stored under the path, and a following entry-breakpoint
allocation takes id 2. -/
theorem setBreakPointsRequest_pre_launch_brs_witness :
    ∃ bps,
      (setBreakPointsRequest id ⟨[], 0, false⟩ "main.brs" [3, 7]).2.1 = some bps ∧
      ((setBreakPointsRequest id ⟨[], 0, false⟩ "main.brs" [3, 7]).1.breakpointsByClientPath.lookup
        (id "main.brs")) = some bps ∧
      bps.map Breakpoint.line = [3, 7] ∧
      bps.map Breakpoint.id = List.range' 0 2 ∧
      (∀ b ∈ bps, b.verified = true) ∧
      (setBreakPointsRequest id ⟨[], 0, false⟩ "main.brs" [3, 7]).1.breakpointIdCounter = 0 + 2 ∧
      (allocEntryBreakpoint (setBreakPointsRequest id ⟨[], 0, false⟩ "main.brs" [3, 7]).1
        9).2.id = 0 + 2 :=
  setBreakPointsRequest_pre_launch_brs id ⟨[], 0, false⟩ "main.brs" [3, 7] 9 rfl (by decide)

/-- C9 (counterexample): the claim is not true of every pre-launch
call — for a non-`.brs` path the request neither stores nor returns
any breakpoint for the requested line. -/
theorem setBreakPointsRequest_pre_launch_counterexample :
    (setBreakPointsRequest id ⟨[], 0, false⟩ "main.xml" [3]).2.1 = some [] ∧
    (setBreakPointsRequest id ⟨[], 0, false⟩ "main.xml" [3]).1.breakpointsByClientPath = [] ∧
    ([] : List Breakpoint).length ≠ [3].length := by
  refine ⟨by decide, by decide, by decide⟩

/-- C6: when no project `.brs` file declares either recognized entry
routine (matched case-insensitively), `addEntryBreakpoint`'s search
comes back empty and it throws; `launchRequest` catches the error,
sends a single error response to the IDE, skips the success response
and shuts the session down — a fatal abort with no retry. -/
theorem launchRequest_missing_entry_point (project : List SourceFile)
    (hno : ∀ f ∈ project,
      strContainsSub (strLower f.contents) (strLower "sub RunUserInterface(") = false ∧
      strContainsSub (strLower f.contents) (strLower "sub main(") = false) :
    addEntryBreakpointCheck project = Except.error missingEntryPointMessage ∧
    launchRequestModel project =
      { errorResponses := [missingEntryPointMessage], responded := false,
        shutdownCalled := true } := by
  have h1 : findInFilesFind project "sub RunUserInterface(" = [] := by
    simp only [findInFilesFind, List.map_eq_nil_iff, List.filter_eq_nil_iff]
    intro f hf
    simp [(hno f hf).1]
  have h2 : findInFilesFind project "sub main(" = [] := by
    simp only [findInFilesFind, List.map_eq_nil_iff, List.filter_eq_nil_iff]
    intro f hf
    simp [(hno f hf).2]
  have hpath : addEntryBreakpointEntryPath project = none := by
    simp [addEntryBreakpointEntryPath, mergeResultKeys, h1, h2]
  have hcheck : addEntryBreakpointCheck project = Except.error missingEntryPointMessage := by
    simp [addEntryBreakpointCheck, hpath]
  exact ⟨hcheck, by simp [launchRequestModel, hcheck]⟩

/-- C6 witness: a project whose only `.brs` file has no entry routine
aborts the launch with the single missing-entry-point error. -/
theorem launchRequest_missing_entry_point_witness :
    addEntryBreakpointCheck [⟨"source/app.brs", "sub helper()\nend sub"⟩] =
      Except.error missingEntryPointMessage ∧
    launchRequestModel [⟨"source/app.brs", "sub helper()\nend sub"⟩] =
      { errorResponses := [missingEntryPointMessage], responded := false,
        shutdownCalled := true } :=
  launchRequest_missing_entry_point [⟨"source/app.brs", "sub helper()\nend sub"⟩]
    (by decide)

/-- C7: while the adapter is not at its debugger prompt, a stack-trace
request answers with an empty frame list and `totalFrames = 0`, a
variables request answers with an empty variable list, and an evaluate
request answers with no body, no device query and an unchanged
evaluation state — all three respond instead of blocking or erroring. -/
theorem requests_while_not_suspended (joinNorm : String → String → String)
    (stagingDirPaths : List String) (la : LaunchArgsModel)
    (store : List (String × List Breakpoint)) (stackTrace : List DebugFrame)
    (fixCase : String → String → String)
    (variablesCache : List (Nat × AugVariable))
    (queryChildren : String → List AugVariable) (variablesReference : Nat)
    (getVar : String → EvaluateContainer) (adapterEval : String → String)
    (st : EvalState) (context expression : String) :
    stackTraceRequest joinNorm stagingDirPaths la store false stackTrace fixCase =
      { stackFrames := [], totalFrames := 0 } ∧
    variablesRequest false variablesCache queryChildren variablesReference =
      some { vars := [] } ∧
    (evaluateRequest getVar adapterEval st false context expression).body = none ∧
    (evaluateRequest getVar adapterEval st false context expression).getVariableCalls = 0 ∧
    (evaluateRequest getVar adapterEval st false context expression).state = st := by
  refine ⟨rfl, rfl, rfl, rfl, rfl⟩

/-- C8 (counterexample): evaluating the same expression twice does NOT
always issue a single device query.  A primitive result is never put
into the variables cache (`getVariableFromResult` caches only arrays
and objects), so the second identical request queries the device
again: two `getVariable` round trips, not one. -/
theorem evaluateRequest_primitive_requery_counterexample :
    (evaluateRequest (fun e => EvaluateContainer.mk "x" e "5" "Integer" "primative" [])
        (fun _ => "") initialEvalState true "watch" "x").getVariableCalls +
      (evaluateRequest (fun e => EvaluateContainer.mk "x" e "5" "Integer" "primative" [])
        (fun _ => "")
        (evaluateRequest (fun e => EvaluateContainer.mk "x" e "5" "Integer" "primative" [])
          (fun _ => "") initialEvalState true "watch" "x").state
        true "watch" "x").getVariableCalls = 2 ∧ (2 : Nat) ≠ 1 := by
  refine ⟨rfl, by decide⟩

/-- C8 (amended): while suspended, evaluating the same expression twice
returns the same evaluation reference id both times; when the first
result is an array or object (which the session caches under that id),
the second request is served from the cache and issues no device
query — the first request issues exactly one. -/
theorem evaluateRequest_same_ref_and_cache (getVar : String → EvaluateContainer)
    (adapterEval : String → String) (name value typeName hlt : String)
    (hhlt : hlt = "object" ∨ hlt = "array")
    (hget : getVar "x" = EvaluateContainer.mk name "x" value typeName hlt []) :
    (evaluateRequest getVar adapterEval initialEvalState true "watch" "x").getVariableCalls = 1 ∧
    (evaluateRequest getVar adapterEval
      (evaluateRequest getVar adapterEval initialEvalState true "watch" "x").state
      true "watch" "x").getVariableCalls = 0 ∧
    (evaluateRequest getVar adapterEval initialEvalState true "watch" "x").body.map
      EvalBody.variablesReference = some 1 ∧
    (evaluateRequest getVar adapterEval
      (evaluateRequest getVar adapterEval initialEvalState true "watch" "x").state
      true "watch" "x").body.map EvalBody.variablesReference = some 1 := by
  have hstrip : stripPrintWord "x" = "x" := rfl
  have hfirst : evaluateRequest getVar adapterEval initialEvalState true "watch" "x" =
      { state :=
          { evaluateRefIdLookup := [("x", 1)],
            evaluateRefIdCounter := 2,
            variablesCache :=
              [(1,
                { name := name, value := typeName, variablesReference := 1,
                  namedVariables := 0, indexedVariables := 0, evaluateName := "x",
                  childVariables := [] })] },
        body :=
          some
            { result := typeName, variablesReference := 1,
              namedVariables := 0, indexedVariables := 0 },
        getVariableCalls := 1,
        events := [] } := by
    rcases hhlt with h | h <;> subst h <;>
      simp [evaluateRequest, hstrip, hget, getEvaluateRefId, getVariableFromResult,
        getVariableListFromResults, setVariableCache, initialEvalState]
  rw [hfirst]
  refine ⟨rfl, ?_, rfl, ?_⟩ <;>
    simp [evaluateRequest, hstrip, getEvaluateRefId]

/-- C8 witness: a concrete object-valued expression, evaluated twice
from a fresh suspension: reference id 1 both times, one query then a
cache hit. -/
theorem evaluateRequest_same_ref_and_cache_witness :
    (evaluateRequest (fun e => EvaluateContainer.mk "x" e "val" "roAssociativeArray" "object" [])
      (fun _ => "") initialEvalState true "watch" "x").getVariableCalls = 1 ∧
    (evaluateRequest (fun e => EvaluateContainer.mk "x" e "val" "roAssociativeArray" "object" [])
      (fun _ => "")
      (evaluateRequest (fun e => EvaluateContainer.mk "x" e "val" "roAssociativeArray" "object" [])
        (fun _ => "") initialEvalState true "watch" "x").state
      true "watch" "x").getVariableCalls = 0 ∧
    (evaluateRequest (fun e => EvaluateContainer.mk "x" e "val" "roAssociativeArray" "object" [])
      (fun _ => "") initialEvalState true "watch" "x").body.map
      EvalBody.variablesReference = some 1 ∧
    (evaluateRequest (fun e => EvaluateContainer.mk "x" e "val" "roAssociativeArray" "object" [])
      (fun _ => "")
      (evaluateRequest (fun e => EvaluateContainer.mk "x" e "val" "roAssociativeArray" "object" [])
        (fun _ => "") initialEvalState true "watch" "x").state
      true "watch" "x").body.map EvalBody.variablesReference = some 1 :=
  evaluateRequest_same_ref_and_cache
    (fun e => EvaluateContainer.mk "x" e "val" "roAssociativeArray" "object" [])
    (fun _ => "") "x" "val" "roAssociativeArray" "object" (Or.inl rfl) rfl

/-- A suffix occurrence is in particular an infix occurrence, so the
source's `indexOf > -1 && endsWith` filter collapses to `endsWith`. -/
theorem strContainsSub_and_strEndsWith (p suf : String) :
    (strContainsSub p suf && strEndsWith p suf) = strEndsWith p suf := by
  by_cases h : strEndsWith p suf = true
  · rw [h, Bool.and_true]
    have hsuf : suf.data <:+ p.data := by
      have := h
      simp only [strEndsWith] at this
      exact List.isSuffixOf_iff_suffix.mp this
    simp [strContainsSub, hsuf.isInfix]
  · rw [Bool.not_eq_true] at h
    rw [h, Bool.and_false]

theorem strStartsWith_dots (suffix : String) :
    strStartsWith ⟨'.' :: '.' :: '.' :: suffix.data⟩ "..." = true := by
  have hdots : ("..." : String).data = ['.', '.', '.'] := rfl
  simp [strStartsWith, hdots, List.isPrefixOf]

theorem strLower_dots_not_pkg (suffix : String) :
    strStartsWith (strLower ⟨'.' :: '.' :: '.' :: suffix.data⟩) "pkg:" = false := by
  have hpkg : ("pkg:" : String).data = ['p', 'k', 'g', ':'] := rfl
  have hdot : Char.toLower '.' = '.' := by decide
  simp [strStartsWith, strLower, hpkg, hdot, List.isPrefixOf]

theorem strDrop_dots (suffix : String) :
    strDrop ⟨'.' :: '.' :: '.' :: suffix.data⟩ 3 = suffix := by
  simp [strDrop]

/-- C4: resolving a truncated device path (`...` followed by a path
suffix) against the staged-file index: with exactly one staged path
ending in the suffix, the path resolves to that unique staged path
(joined onto the configured root); with zero or two-or-more matches it
falls back to the raw suffix, never guessing among candidates. -/
theorem convertDebuggerPathToClient_truncated (joinNorm : String → String → String)
    (stagingDirPaths : List String) (la : LaunchArgsModel) (suffix m : String) :
    (stagingDirPaths.filter (fun sp => strEndsWith sp suffix) = [m] →
      convertDebuggerPathToClient joinNorm stagingDirPaths la
        ⟨'.' :: '.' :: '.' :: suffix.data⟩ = joinNorm (effectiveRootDir la) m) ∧
    ((stagingDirPaths.filter (fun sp => strEndsWith sp suffix)).length ≠ 1 →
      convertDebuggerPathToClient joinNorm stagingDirPaths la
        ⟨'.' :: '.' :: '.' :: suffix.data⟩ = joinNorm (effectiveRootDir la) suffix) := by
  have hfeq : stagingDirPaths.filter (fun sp => strContainsSub sp suffix && strEndsWith sp suffix) =
      stagingDirPaths.filter (fun sp => strEndsWith sp suffix) :=
    List.filter_congr (fun x _ => strContainsSub_and_strEndsWith x suffix)
  constructor
  · intro hm
    simp only [convertDebuggerPathToClient, strLower_dots_not_pkg suffix,
      strStartsWith_dots suffix, strDrop_dots suffix, Bool.false_eq_true, if_false,
      if_true, hfeq, hm]
    rfl
  · intro hm
    simp only [convertDebuggerPathToClient, strLower_dots_not_pkg suffix,
      strStartsWith_dots suffix, strDrop_dots suffix, Bool.false_eq_true, if_false,
      if_true, hfeq]
    rw [if_neg hm]

/-- C4 witness: `".../widgets/Button.brs"` resolves uniquely against a
one-match index, and falls back to the suffix against a two-match
index. -/
theorem convertDebuggerPathToClient_truncated_witness :
    convertDebuggerPathToClient (fun a b => a ++ "/" ++ b) ["source/widgets/Button.brs"]
      ⟨"root", none⟩ ⟨'.' :: '.' :: '.' :: ("/widgets/Button.brs" : String).data⟩ =
      "root" ++ "/" ++ "source/widgets/Button.brs" ∧
    convertDebuggerPathToClient (fun a b => a ++ "/" ++ b)
      ["source/widgets/Button.brs", "other/widgets/Button.brs"]
      ⟨"root", none⟩ ⟨'.' :: '.' :: '.' :: ("/widgets/Button.brs" : String).data⟩ =
      "root" ++ "/" ++ "/widgets/Button.brs" := by
  constructor
  · exact (convertDebuggerPathToClient_truncated (fun a b => a ++ "/" ++ b)
      ["source/widgets/Button.brs"] ⟨"root", none⟩ "/widgets/Button.brs"
      "source/widgets/Button.brs").1 (by decide)
  · exact (convertDebuggerPathToClient_truncated (fun a b => a ++ "/" ++ b)
      ["source/widgets/Button.brs", "other/widgets/Button.brs"] ⟨"root", none⟩
      "/widgets/Button.brs" "unused").2 (by decide)

/-- C5: if a user breakpoint already occupies the line where the
synthetic entry breakpoint lands — so that after the line-ordered merge
the two are immediate neighbours in the sorted array — the entry
breakpoint is discarded: the file keeps exactly the user-specified
number of breakpoints and `this.entryBreakpoint` is reset. -/
theorem addEntryBreakpoint_drops_entry_on_user_line
    (userBreakpoints : List Breakpoint) (entryBreakpoint : Breakpoint)
    (hfresh : entryBreakpoint ∉ userBreakpoints)
    (hline : ∃ u ∈ userBreakpoints, u.line = entryBreakpoint.line) :
    (mergeEntryBreakpoint userBreakpoints entryBreakpoint).1.length =
      userBreakpoints.length ∧
    (mergeEntryBreakpoint userBreakpoints entryBreakpoint).2 = none := by
  classical
  set bs := (userBreakpoints ++ [entryBreakpoint]).insertionSort bpLineLe with hbs
  have hperm : List.Perm bs (userBreakpoints ++ [entryBreakpoint]) :=
    List.perm_insertionSort bpLineLe _
  have hsorted : List.Sorted bpLineLe bs := List.sorted_insertionSort bpLineLe _
  have hlen : bs.length = userBreakpoints.length + 1 := by
    rw [hperm.length_eq]
    simp
  have hmem : entryBreakpoint ∈ bs := hperm.mem_iff.mpr (by simp)
  have hi : bs.indexOf entryBreakpoint < bs.length := List.indexOf_lt_length.mpr hmem
  have hgeti : bs.get ⟨bs.indexOf entryBreakpoint, hi⟩ = entryBreakpoint :=
    List.indexOf_get hi
  obtain ⟨u, hu, huline⟩ := hline
  have humem : u ∈ bs := hperm.mem_iff.mpr (by simp [hu])
  have hune : u ≠ entryBreakpoint := fun h => hfresh (h ▸ hu)
  obtain ⟨⟨j, hj⟩, hgj⟩ := List.mem_iff_get.mp humem
  have hji : j ≠ bs.indexOf entryBreakpoint := by
    intro h
    apply hune
    rw [← hgj, ← hgeti]
    congr 1
    exact Fin.ext h
  have hcond :
      ((match jsGet bs ((bs.indexOf entryBreakpoint : Int) - 1) with
        | some b => b.line == entryBreakpoint.line
        | none => false) ||
      (match jsGet bs ((bs.indexOf entryBreakpoint : Int) + 1) with
        | some b => b.line == entryBreakpoint.line
        | none => false)) = true := by
    rcases Nat.lt_or_ge j (bs.indexOf entryBreakpoint) with hlt | hge
    · -- the user breakpoint sits somewhere before the entry breakpoint
      have h1 : 1 ≤ bs.indexOf entryBreakpoint := by omega
      have hprev : bs.indexOf entryBreakpoint - 1 < bs.length := by omega
      have hup : u.line ≤ (bs.get ⟨bs.indexOf entryBreakpoint - 1, hprev⟩).line := by
        rcases Nat.lt_or_ge j (bs.indexOf entryBreakpoint - 1) with hlt' | hge'
        · have := hsorted.rel_get_of_lt (a := ⟨j, hj⟩)
            (b := ⟨bs.indexOf entryBreakpoint - 1, hprev⟩) (Fin.mk_lt_mk.mpr hlt')
          rw [hgj] at this
          exact this
        · have hjeq : j = bs.indexOf entryBreakpoint - 1 := by omega
          have : bs.get ⟨j, hj⟩ = bs.get ⟨bs.indexOf entryBreakpoint - 1, hprev⟩ := by
            congr 1
            exact Fin.ext hjeq
          rw [← this, hgj]
      have hpe : (bs.get ⟨bs.indexOf entryBreakpoint - 1, hprev⟩).line ≤
          entryBreakpoint.line := by
        have := hsorted.rel_get_of_lt (a := ⟨bs.indexOf entryBreakpoint - 1, hprev⟩)
          (b := ⟨bs.indexOf entryBreakpoint, hi⟩) (Fin.mk_lt_mk.mpr (by omega))
        rw [hgeti] at this
        exact this
      have heq : (bs.get ⟨bs.indexOf entryBreakpoint - 1, hprev⟩).line =
          entryBreakpoint.line := by omega
      rw [List.get_eq_getElem] at heq
      have hjs : jsGet bs ((bs.indexOf entryBreakpoint : Int) - 1) =
          some bs[bs.indexOf entryBreakpoint - 1] := by
        have hnn : (0 : Int) ≤ (bs.indexOf entryBreakpoint : Int) - 1 := by omega
        have htn : ((bs.indexOf entryBreakpoint : Int) - 1).toNat =
            bs.indexOf entryBreakpoint - 1 := by omega
        simp only [jsGet, if_pos hnn, htn]
        rw [List.get?_eq_getElem?, List.getElem?_eq_getElem hprev]
      rw [hjs]
      simp [heq]
    · -- the user breakpoint sits somewhere after the entry breakpoint
      have hlt : bs.indexOf entryBreakpoint < j := by omega
      have hnext : bs.indexOf entryBreakpoint + 1 < bs.length := by omega
      have hen : entryBreakpoint.line ≤
          (bs.get ⟨bs.indexOf entryBreakpoint + 1, hnext⟩).line := by
        have := hsorted.rel_get_of_lt (a := ⟨bs.indexOf entryBreakpoint, hi⟩)
          (b := ⟨bs.indexOf entryBreakpoint + 1, hnext⟩) (Fin.mk_lt_mk.mpr (by omega))
        rw [hgeti] at this
        exact this
      have hnu : (bs.get ⟨bs.indexOf entryBreakpoint + 1, hnext⟩).line ≤ u.line := by
        rcases Nat.lt_or_ge (bs.indexOf entryBreakpoint + 1) j with hlt' | hge'
        · have := hsorted.rel_get_of_lt (a := ⟨bs.indexOf entryBreakpoint + 1, hnext⟩)
            (b := ⟨j, hj⟩) (Fin.mk_lt_mk.mpr hlt')
          rw [hgj] at this
          exact this
        · have hjeq : j = bs.indexOf entryBreakpoint + 1 := by omega
          have : bs.get ⟨j, hj⟩ = bs.get ⟨bs.indexOf entryBreakpoint + 1, hnext⟩ := by
            congr 1
            exact Fin.ext hjeq
          rw [← this, hgj]
      have heq : (bs.get ⟨bs.indexOf entryBreakpoint + 1, hnext⟩).line =
          entryBreakpoint.line := by omega
      rw [List.get_eq_getElem] at heq
      have hjs : jsGet bs ((bs.indexOf entryBreakpoint : Int) + 1) =
          some bs[bs.indexOf entryBreakpoint + 1] := by
        have hnn : (0 : Int) ≤ (bs.indexOf entryBreakpoint : Int) + 1 := by omega
        have htn : ((bs.indexOf entryBreakpoint : Int) + 1).toNat =
            bs.indexOf entryBreakpoint + 1 := by omega
        simp only [jsGet, if_pos hnn, htn]
        rw [List.get?_eq_getElem?, List.getElem?_eq_getElem hnext]
      rw [hjs]
      simp [heq]
  have hmerge : mergeEntryBreakpoint userBreakpoints entryBreakpoint =
      (bs.eraseIdx (bs.indexOf entryBreakpoint), none) := by
    simp only [mergeEntryBreakpoint, ← hbs]
    rw [hcond]
    simp
  rw [hmerge]
  refine ⟨?_, rfl⟩
  rw [List.length_eraseIdx, if_pos hi]
  omega

/-- C5 witness: a user breakpoint on line 2 and an entry breakpoint
landing on line 2 — the merged set keeps one breakpoint and the entry
breakpoint is discarded. -/
theorem addEntryBreakpoint_drops_entry_on_user_line_witness :
    (mergeEntryBreakpoint [⟨0, 2, true⟩] ⟨1, 2, true⟩).1.length = 1 ∧
    (mergeEntryBreakpoint [⟨0, 2, true⟩] ⟨1, 2, true⟩).2 = none :=
  addEntryBreakpoint_drops_entry_on_user_line [⟨0, 2, true⟩] ⟨1, 2, true⟩
    (by decide) ⟨⟨0, 2, true⟩, by decide, rfl⟩
